import Mathlib

set_option maxRecDepth 4000

/-!
# Verification of the `python-notebook` command-line notebook

Shallow embedding of `src/main.py`. The program keeps an in-memory list of
`Note` objects mirroring `.txt` files in a notes folder, and a command loop
dispatching `create` / `edit` / `delete` / `rename` / `home` commands.

Modelling choices:
* The filesystem is an association list from file path to file content
  (`FS`). `open(p, "w").write(c)` is `fsWrite`, `open(p, "r").read()` is
  `fsRead` (`none` models the `FileNotFoundError` raised when the path is
  absent), `os.rename` is `fsRename`.
* `notes_folder` is modelled as the relative path `"notes"`, so the path
  `os.path.join(notes_folder, f"{name}.txt")` is the string
  `"notes/" ++ name ++ ".txt"`; the f-string `f"notes/{note.name}.txt"`
  used by `display_notes` denotes the same string.
* `datetime.now()` is an abstract clock value passed in as a `Nat`
  parameter `now`; `input(...)` values are passed as explicit `String`
  parameters; `print(...)` output is collected as a `List String` of
  messages.  The read-only table printed by `reset_screen` is modelled
  separately by `Notebook.display_notes`.
* Python string operations are modelled on the code-point list `s.data`
  (Python strings are sequences of code points): `pyLower` is `str.lower`
  (ASCII case mapping), `pyTake s n` is `s[:n]`, `pyEndsWith` is
  `str.endswith`, `pyReplaceUnderscore` is `str.replace('_', ' ')`,
  `pyStemTxt` is `os.path.splitext(f)[0]` for a file name `f` ending in
  `".txt"` (splitext does not treat a leading-dot run as an extension
  separator, so e.g. `".txt"` is its own stem).
* Operations that can raise an uncaught Python exception return
  `Except String _`, the error string naming the exception.
-/

/-- Python `s.lower()` (ASCII case mapping, per code point). -/
def pyLower (s : String) : String := String.mk (s.data.map Char.toLower)

/-- Python `s[:n]` (first `n` code points). -/
def pyTake (s : String) (n : Nat) : String := String.mk (s.data.take n)

/-- Python `s.endswith(suffix)`. -/
def pyEndsWith (s suffix : String) : Bool := suffix.data.isSuffixOf s.data

/-- Python `s.replace('_', ' ')`. -/
def pyReplaceUnderscore (s : String) : String :=
  String.mk (s.data.map (fun c => if c == '_' then ' ' else c))

/-- Python `os.path.splitext(f)[0]` for a file name `f` that ends in
`".txt"`: drops the final `".txt"` unless that dot belongs to the
leading-dot run of the name (e.g. `os.path.splitext(".txt") = (".txt", "")`). -/
def pyStemTxt (f : String) : String :=
  if f.data.dropWhile (fun c => c == '.') == "txt".data then f
  else String.mk (f.data.take (f.data.length - 4))

/-- In-memory note object (`class Note` in `main.py`).  The constructor
`Note(name, content)` sets `edited_time = datetime.now()` and
`filepath = os.path.join(notes_folder, f"{name}.txt")`. -/
structure Note where
  name : String
  content : String
  edited_time : Nat
  filepath : String
deriving DecidableEq

/-- In-memory notebook state: the ordered collection `self.notes`. -/
structure Notebook where
  notes : List Note
deriving DecidableEq

/-- Filesystem contents: association list from path to file content. -/
abbrev FS := List (String × String)

/-- The `notes_folder` path (modelled as the relative path, see header). -/
def notes_folder : String := "notes"

/-- Model of `os.path.join(notes_folder, f"{name}.txt")`. -/
def filePathOf (name : String) : String := notes_folder ++ "/" ++ name ++ ".txt"

/-- Read a file: `open(p, "r").read()`; `none` models `FileNotFoundError`. -/
def fsRead (fs : FS) (p : String) : Option String :=
  (fs.find? (fun e => e.1 == p)).map (·.2)

/-- Remove every entry at path `p`. -/
def fsEraseKey (fs : FS) (p : String) : FS :=
  fs.filter (fun e => e.1 != p)

/-- Write (create or overwrite) a file: `open(p, "w").write(c)`. -/
def fsWrite (fs : FS) (p c : String) : FS :=
  (p, c) :: fsEraseKey fs p

/-- Model of `os.rename(old, new)`: `none` models the `FileNotFoundError` raised
when `old` does not exist; otherwise the entry moves to `new`
(overwriting `new` if present, as POSIX rename does). -/
def fsRename (fs : FS) (old new : String) : Option FS :=
  (fsRead fs old).map (fun c => fsWrite (fsEraseKey fs old) new c)

/-- Model of `Note.save`: writes `self.content` to `self.filepath` and sets
`self.edited_time = datetime.now()`. -/
def Note.save (n : Note) (fs : FS) (now : Nat) : Note × FS :=
  ({ n with edited_time := now }, fsWrite fs n.filepath n.content)

/-- Model of `Notebook.note_exists(name)`:
`any(note.name.lower() == name.lower() for note in self.notes)`. -/
def Notebook.note_exists (nb : Notebook) (name : String) : Bool :=
  nb.notes.any (fun n => pyLower n.name == pyLower name)

/-- Model of `Notebook.get_note(name)`: first note with `note.name.lower() ==
name.lower()`, else `None`. -/
def Notebook.get_note (nb : Notebook) (name : String) : Option Note :=
  nb.notes.find? (fun n => pyLower n.name == pyLower name)

/-- Model of `Notebook.create_note(name)`: on a name clash prints a conflict
message and does nothing; otherwise reads the content from `input()`
(parameter `content`), appends `Note(name, content)` and saves it.
(`reset_screen` afterwards only re-prints the table; see
`Notebook.display_notes`.) -/
def Notebook.create_note (nb : Notebook) (fs : FS) (name content : String) (now : Nat) :
    Notebook × FS × List String :=
  if nb.note_exists name then
    (nb, fs, ["A note with this name already exists. Please choose a different name."])
  else
    let note : Note := ⟨name, content, now, filePathOf name⟩
    let (note', fs') := note.save fs now
    (⟨nb.notes ++ [note']⟩, fs', [])

/-- Helper for `rename_note`: Python looks the note up with `get_note`
and mutates that object in place; this recursion rewrites the first note
matching `old_name` (case-insensitively), performing `os.rename` from the
note's stored `filepath` to the new path and then `note.save()`. -/
def renameGo (old_name new_name : String) (now : Nat) (fs : FS) :
    List Note → Except String (Option (List Note × FS))
  | [] => .ok none
  | n :: rest =>
    if pyLower n.name == pyLower old_name then
      match fsRename fs n.filepath (filePathOf new_name) with
      | none => .error "FileNotFoundError"
      | some fs1 =>
        let n' : Note := ⟨new_name, n.content, now, filePathOf new_name⟩
        .ok (some (n' :: rest, fsWrite fs1 n'.filepath n'.content))
    else
      match renameGo old_name new_name now fs rest with
      | .error e => .error e
      | .ok none => .ok none
      | .ok (some (rest', fs')) => .ok (some (n :: rest', fs'))

/-- Model of `Notebook.rename_note(old_name, new_name)`: conflict message when
`old_name.lower() != new_name.lower() and note_exists(new_name)`;
otherwise renames the first matching note (name, filepath, backing file,
re-save) or reports "Note not found.". -/
def Notebook.rename_note (nb : Notebook) (fs : FS) (old_name new_name : String) (now : Nat) :
    Except String (Notebook × FS × List String) :=
  if pyLower old_name != pyLower new_name && nb.note_exists new_name then
    .ok (nb, fs, ["A note with this name already exists. Please choose a different name."])
  else
    match renameGo old_name new_name now fs nb.notes with
    | .error e => .error e
    | .ok none => .ok (nb, fs, ["Note not found."])
    | .ok (some (notes', fs')) => .ok (⟨notes'⟩, fs', ["Note renamed successfully."])

/-- Model of `Notebook.delete_note(name)`: looks the note up; if found, compares
`input(...).lower()` with `'yes'`.  On confirmation the code calls
`note.delete()` — but `class Note` defines no method `delete`, so Python
raises `AttributeError` there, before `self.notes.remove(note)` or any
file removal runs.  A declined confirmation prints "Deletion cancelled."
and returns `False`; an absent note returns `False` silently. -/
def Notebook.delete_note (nb : Notebook) (fs : FS) (name confirmation : String) :
    Except String (Bool × Notebook × FS × List String) :=
  match nb.get_note name with
  | some _ =>
    if pyLower confirmation == "yes" then
      .error "AttributeError: Note object has no attribute delete"
    else
      .ok (false, nb, fs, ["Deletion cancelled."])
  | none => .ok (false, nb, fs, [])

/-- One rendered table row of `display_notes`: 1-based index, name with
underscores shown as spaces, last-edited time, content preview
(`note.content[:50] + '...' if len(note.content) > 50 else note.content`). -/
structure Row where
  idx : Nat
  name : String
  edited : Nat
  preview : String
deriving DecidableEq

/-- Helper for `display_notes`: builds the rows from index `i`
(`enumerate(self.notes, start=1)`), reading `f"notes/{note.name}.txt"`
for each note with no exception handler. -/
def displayRows (fs : FS) (i : Nat) : List Note → Except String (List Row)
  | [] => .ok []
  | n :: rest =>
    match fsRead fs (filePathOf n.name) with
    | none => .error "FileNotFoundError"
    | some _ =>
      match displayRows fs (i + 1) rest with
      | .error e => .error e
      | .ok rs =>
        .ok ({ idx := i, name := pyReplaceUnderscore n.name, edited := n.edited_time,
               preview := if 50 < n.content.length
                          then pyTake n.content 50 ++ "..."
                          else n.content } :: rs)

/-- Model of `Notebook.display_notes`: renders the table, or raises
(`Except.error`) when some note's backing file is missing. -/
def Notebook.display_notes (nb : Notebook) (fs : FS) : Except String (List Row) :=
  displayRows fs 1 nb.notes

/-- Model of `Notebook.load_notes`: scans the directory listing of the notes
folder, and for each file ending in `".txt"` reads its content and
constructs `Note(stem, content)`; other files are skipped. -/
def Notebook.load_notes (listing : List String) (fs : FS) (now : Nat) :
    Except String (List Note) :=
  match listing with
  | [] => .ok []
  | f :: rest =>
    if pyEndsWith f ".txt" then
      match fsRead fs (notes_folder ++ "/" ++ f) with
      | none => .error "FileNotFoundError"
      | some c =>
        match Notebook.load_notes rest fs now with
        | .error e => .error e
        | .ok ns => .ok (⟨pyStemTxt f, c, now, filePathOf (pyStemTxt f)⟩ :: ns)
    else Notebook.load_notes rest fs now

/-- Model of `CommandProcessor.delete(args)`: with no argument prints a usage
message; otherwise calls `delete_note(args[0])` and prints
"Note deleted successfully." on `True` and "Note not found." on `False`. -/
def CommandProcessor.delete (nb : Notebook) (fs : FS) (args : List String)
    (confirmation : String) : Except String (Notebook × FS × List String) :=
  match args with
  | [] => .ok (nb, fs, ["Please provide a note name."])
  | a :: _ =>
    match nb.delete_note fs a confirmation with
    | .error e => .error e
    | .ok (ok, nb', fs', msgs) =>
      .ok (nb', fs', msgs ++ [if ok then "Note deleted successfully." else "Note not found."])

/-- The spec's Notebook invariant: no two notes share a name under
case-insensitive comparison. -/
def noCaseDup : List Note → Bool
  | [] => true
  | n :: rest => !(rest.any (fun m => pyLower m.name == pyLower n.name)) && noCaseDup rest

/-- Hygiene condition on a directory listing: no two `.txt` file names
have case-insensitively equal stems. -/
def listingOk : List String → Bool
  | [] => true
  | f :: rest =>
    if pyEndsWith f ".txt" then
      !(rest.any (fun g => pyEndsWith g ".txt" &&
          (pyLower (pyStemTxt g) == pyLower (pyStemTxt f)))) && listingOk rest
    else listingOk rest

/-! ## Concrete fixtures used by witnesses -/

/-- A 60-character content (truncation case of the preview rule). -/
def w8long : String := String.mk (List.replicate 60 'a')

/-- A 40-character content (pass-through case of the preview rule). -/
def w8short : String := String.mk (List.replicate 40 'b')

/-- Two-note notebook fixture for the preview-truncation witness. -/
def w8notebook : Notebook :=
  ⟨[⟨"long", w8long, 0, filePathOf "long"⟩, ⟨"short", w8short, 1, filePathOf "short"⟩]⟩

/-- Matching filesystem fixture for `w8notebook`. -/
def w8fs : FS := [(filePathOf "long", w8long), (filePathOf "short", w8short)]

/-- The table rows `display_notes` renders for `w8notebook`. -/
def w8rows : List Row :=
  [⟨1, "long", 0, String.mk (List.replicate 50 'a') ++ "..."⟩, ⟨2, "short", 1, w8short⟩]

/-! ## Helper lemmas about the filesystem model -/

theorem fsRead_cons_eq {k q : String} (v : String) (fs : FS) (h : (k == q) = true) :
    fsRead ((k, v) :: fs) q = some v := by
  simp [fsRead, List.find?, h]

theorem fsRead_cons_ne {k q : String} (v : String) (fs : FS) (h : (k == q) = false) :
    fsRead ((k, v) :: fs) q = fsRead fs q := by
  simp [fsRead, List.find?, h]

theorem fsEraseKey_cons_self {k p : String} (v : String) (fs : FS) (h : k = p) :
    fsEraseKey ((k, v) :: fs) p = fsEraseKey fs p := by
  simp [fsEraseKey, List.filter_cons, h]

theorem fsEraseKey_cons_ne {k p : String} (v : String) (fs : FS) (h : ¬ k = p) :
    fsEraseKey ((k, v) :: fs) p = (k, v) :: fsEraseKey fs p := by
  simp [fsEraseKey, List.filter_cons, h]

theorem fsRead_eraseKey_self (fs : FS) (p : String) : fsRead (fsEraseKey fs p) p = none := by
  induction fs with
  | nil => rfl
  | cons e rest ih =>
    obtain ⟨k, v⟩ := e
    by_cases h : k = p
    · rw [fsEraseKey_cons_self v rest h]; exact ih
    · rw [fsEraseKey_cons_ne v rest h, fsRead_cons_ne v _ (beq_eq_false_iff_ne.mpr h)]
      exact ih

theorem fsRead_eraseKey_ne (fs : FS) {p q : String} (h : q ≠ p) :
    fsRead (fsEraseKey fs p) q = fsRead fs q := by
  induction fs with
  | nil => rfl
  | cons e rest ih =>
    obtain ⟨k, v⟩ := e
    by_cases h1 : k = p
    · have h2 : (k == q) = false := beq_eq_false_iff_ne.mpr (fun hh => h (h1 ▸ hh).symm)
      rw [fsEraseKey_cons_self v rest h1, fsRead_cons_ne v rest h2]
      exact ih
    · rw [fsEraseKey_cons_ne v rest h1]
      by_cases h2 : k = q
      · rw [fsRead_cons_eq v _ (beq_iff_eq.mpr h2), fsRead_cons_eq v rest (beq_iff_eq.mpr h2)]
      · rw [fsRead_cons_ne v _ (beq_eq_false_iff_ne.mpr h2),
            fsRead_cons_ne v rest (beq_eq_false_iff_ne.mpr h2)]
        exact ih

theorem fsRead_write_self (fs : FS) (p c : String) : fsRead (fsWrite fs p c) p = some c := by
  rw [fsWrite, fsRead_cons_eq c _ (beq_self_eq_true p)]

theorem fsRead_write_ne (fs : FS) {p q : String} (c : String) (h : q ≠ p) :
    fsRead (fsWrite fs p c) q = fsRead fs q := by
  rw [fsWrite, fsRead_cons_ne c _ (beq_eq_false_iff_ne.mpr (fun hh => h hh.symm))]
  exact fsRead_eraseKey_ne fs h

theorem filePathOf_inj {a b : String} (h : filePathOf a = filePathOf b) : a = b := by
  unfold filePathOf notes_folder at h
  have hd := congrArg String.data h
  simp only [String.data_append] at hd
  exact String.ext (List.append_cancel_left (List.append_cancel_right hd))

/-! ## Claims -/

/-- Claim C1: for any name not already present, `create_note(name)` with
content `c` followed by `get_note(name)` returns a note whose in-memory
content equals `c`, and the backing file `notes/<name>.txt` contains
exactly the text `c`. -/
theorem C1_create_get_roundtrip (nb : Notebook) (fs : FS) (name c : String) (now : Nat)
    (h : nb.note_exists name = false) :
    (nb.create_note fs name c now).1.get_note name =
        some ⟨name, c, now, filePathOf name⟩ ∧
      fsRead (nb.create_note fs name c now).2.1 (filePathOf name) = some c := by
  have hnone : nb.notes.find? (fun n => pyLower n.name == pyLower name) = none := by
    rw [List.find?_eq_none]
    intro x hx
    have := (List.any_eq_false.mp h) x hx
    simp [this]
  constructor
  · simp only [Notebook.create_note, h, Bool.false_eq_true, if_false, Note.save,
      Notebook.get_note]
    rw [List.find?_append, hnone]
    simp [List.find?]
  · simp only [Notebook.create_note, h, Bool.false_eq_true, if_false, Note.save]
    exact fsRead_write_self fs (filePathOf name) c

/-- Witness for C1 at a concrete input. -/
theorem C1_witness :
    (Notebook.note_exists ⟨[⟨"a", "x", 0, filePathOf "a"⟩]⟩ "todo" = false) ∧
      ((Notebook.create_note ⟨[⟨"a", "x", 0, filePathOf "a"⟩]⟩ [] "todo" "buy milk" 5).1.get_note
          "todo" = some ⟨"todo", "buy milk", 5, filePathOf "todo"⟩ ∧
        fsRead (Notebook.create_note ⟨[⟨"a", "x", 0, filePathOf "a"⟩]⟩ [] "todo" "buy milk" 5).2.1
          (filePathOf "todo") = some "buy milk") :=
  ⟨by decide, C1_create_get_roundtrip ⟨[⟨"a", "x", 0, filePathOf "a"⟩]⟩ [] "todo" "buy milk" 5
    (by decide)⟩

/-- Claim C2: `note_exists` is case-insensitive: it returns `true` for any
string agreeing with a present note's name up to (ASCII) case, and `false`
when no note's name matches case-insensitively. -/
theorem C2_note_exists_case_insensitive (nb : Notebook) (m : String) :
    ((∃ n ∈ nb.notes, pyLower n.name = pyLower m) → nb.note_exists m = true) ∧
    ((∀ n ∈ nb.notes, pyLower n.name ≠ pyLower m) → nb.note_exists m = false) := by
  constructor
  · rintro ⟨n, hn, he⟩
    rw [Notebook.note_exists, List.any_eq_true]
    exact ⟨n, hn, beq_iff_eq.mpr he⟩
  · intro hall
    rw [Notebook.note_exists, List.any_eq_false]
    intro n hn
    exact fun hh => hall n hn (beq_iff_eq.mp hh)

/-- Witness for C2 at a concrete input. -/
theorem C2_witness :
    Notebook.note_exists ⟨[⟨"Foo", "", 0, filePathOf "Foo"⟩]⟩ "fOO" = true ∧
      Notebook.note_exists ⟨[⟨"Foo", "", 0, filePathOf "Foo"⟩]⟩ "bar" = false :=
  ⟨(C2_note_exists_case_insensitive ⟨[⟨"Foo", "", 0, filePathOf "Foo"⟩]⟩ "fOO").1
      ⟨⟨"Foo", "", 0, filePathOf "Foo"⟩, by decide, by decide⟩,
    (C2_note_exists_case_insensitive ⟨[⟨"Foo", "", 0, filePathOf "Foo"⟩]⟩ "bar").2 (by decide)⟩

/-- Claim C6: when `note_exists(name)` holds, `create_note(name)` reports
the conflict message and performs no mutation: the collection and the
filesystem are returned unchanged. -/
theorem C6_create_conflict_no_mutation (nb : Notebook) (fs : FS) (name content : String)
    (now : Nat) (h : nb.note_exists name = true) :
    nb.create_note fs name content now =
      (nb, fs, ["A note with this name already exists. Please choose a different name."]) := by
  simp [Notebook.create_note, h]

/-- Witness for C6 at a concrete input. -/
theorem C6_witness :
    Notebook.note_exists ⟨[⟨"todo", "x", 0, filePathOf "todo"⟩]⟩ "TODO" = true ∧
      Notebook.create_note ⟨[⟨"todo", "x", 0, filePathOf "todo"⟩]⟩ [(filePathOf "todo", "x")]
          "TODO" "y" 7 =
        (⟨[⟨"todo", "x", 0, filePathOf "todo"⟩]⟩, [(filePathOf "todo", "x")],
          ["A note with this name already exists. Please choose a different name."]) :=
  ⟨by decide, C6_create_conflict_no_mutation ⟨[⟨"todo", "x", 0, filePathOf "todo"⟩]⟩
    [(filePathOf "todo", "x")] "TODO" "y" 7 (by decide)⟩

/-! ## Lemmas about `display_notes` -/

theorem displayRows_ok_iff (fs : FS) :
    ∀ (l : List Note) (i : Nat),
      (∃ rows, displayRows fs i l = .ok rows) ↔
        ∀ n ∈ l, (fsRead fs (filePathOf n.name)).isSome = true := by
  intro l
  induction l with
  | nil => intro i; exact ⟨fun _ => by simp, fun _ => ⟨[], rfl⟩⟩
  | cons n rest ih =>
    intro i
    constructor
    · rintro ⟨rows, h⟩
      unfold displayRows at h
      cases hr : fsRead fs (filePathOf n.name) with
      | none => rw [hr] at h; cases h
      | some c =>
        rw [hr] at h
        cases hd : displayRows fs (i + 1) rest with
        | error e => rw [hd] at h; cases h
        | ok rs =>
          intro m hm
          rcases List.mem_cons.mp hm with hm | hm
          · subst hm; rw [hr]; rfl
          · exact ((ih (i + 1)).mp ⟨rs, hd⟩) m hm
    · intro hall
      have hr : (fsRead fs (filePathOf n.name)).isSome = true := hall n (List.mem_cons_self n rest)
      obtain ⟨c, hc⟩ := Option.isSome_iff_exists.mp hr
      obtain ⟨rs, hd⟩ := (ih (i + 1)).mpr (fun m hm => hall m (List.mem_cons_of_mem n hm))
      refine ⟨(⟨i, pyReplaceUnderscore n.name, n.edited_time,
        if 50 < n.content.length then pyTake n.content 50 ++ "..." else n.content⟩ : Row)
          :: rs, ?_⟩
      unfold displayRows
      rw [hc, hd]

theorem displayRows_preview (fs : FS) :
    ∀ (l : List Note) (i : Nat) (rows : List Row),
      displayRows fs i l = .ok rows →
      rows.length = l.length ∧
        ∀ (j : Nat) (hj : j < rows.length) (hl : j < l.length),
          (rows.get ⟨j, hj⟩).preview =
            if 50 < (l.get ⟨j, hl⟩).content.length
            then pyTake (l.get ⟨j, hl⟩).content 50 ++ "..."
            else (l.get ⟨j, hl⟩).content := by
  intro l
  induction l with
  | nil =>
    intro i rows h
    have : rows = [] := by
      have h' : (Except.ok [] : Except String (List Row)) = .ok rows := h
      cases h'; rfl
    subst this
    exact ⟨rfl, fun j hj => absurd hj (by simp)⟩
  | cons n rest ih =>
    intro i rows h
    unfold displayRows at h
    cases hr : fsRead fs (filePathOf n.name) with
    | none => rw [hr] at h; cases h
    | some c =>
      rw [hr] at h
      cases hd : displayRows fs (i + 1) rest with
      | error e => rw [hd] at h; cases h
      | ok rs =>
        rw [hd] at h
        cases h
        obtain ⟨hlen, hspec⟩ := ih (i + 1) rs hd
        refine ⟨by simp [hlen], ?_⟩
        intro j hj hl
        cases j with
        | zero => rfl
        | succ j =>
          exact hspec j (Nat.lt_of_succ_lt_succ (by simpa using hj))
            (Nat.lt_of_succ_lt_succ (by simpa using hl))

/-! ## Lemmas about renaming and the uniqueness invariant -/

theorem noCaseDup_iff (l : List Note) :
    noCaseDup l = true ↔ l.Pairwise (fun a b => pyLower a.name ≠ pyLower b.name) := by
  induction l with
  | nil => simp [noCaseDup]
  | cons n rest ih =>
    rw [noCaseDup, Bool.and_eq_true, Bool.not_eq_true', List.any_eq_false, ih,
      List.pairwise_cons]
    constructor
    · rintro ⟨h1, h2⟩
      exact ⟨fun b hb hne => h1 b hb (beq_iff_eq.mpr hne.symm), h2⟩
    · rintro ⟨h1, h2⟩
      exact ⟨fun b hb hbeq => h1 b hb (beq_iff_eq.mp hbeq).symm, h2⟩

theorem pairwise_replace_mid {l₁ l₂ : List Note} {n m : Note}
    (hpw : (l₁ ++ n :: l₂).Pairwise (fun a b => pyLower a.name ≠ pyLower b.name))
    (hm : ∀ k, k ∈ l₁ ++ l₂ → pyLower k.name ≠ pyLower m.name) :
    (l₁ ++ m :: l₂).Pairwise (fun a b => pyLower a.name ≠ pyLower b.name) := by
  rw [List.pairwise_append] at hpw ⊢
  obtain ⟨hp₁, hp₂, hcross⟩ := hpw
  rw [List.pairwise_cons] at hp₂ ⊢
  refine ⟨hp₁, ⟨fun b hb => ?_, hp₂.2⟩, ?_⟩
  · exact (hm b (List.mem_append_right l₁ hb)).symm
  · intro a ha b hb
    rcases List.mem_cons.mp hb with hb | hb
    · subst hb; exact hm a (List.mem_append_left l₂ ha)
    · exact hcross a ha b (List.mem_cons_of_mem n hb)

theorem renameGo_found (old_name new_name : String) (now : Nat) (note : Note) (c : String) :
    ∀ (l : List Note) (fs : FS),
      l.find? (fun n => pyLower n.name == pyLower old_name) = some note →
      fsRead fs note.filepath = some c →
      ∃ l₁ l₂, l = l₁ ++ note :: l₂ ∧
        (∀ n ∈ l₁, (pyLower n.name == pyLower old_name) = false) ∧
        renameGo old_name new_name now fs l =
          .ok (some (l₁ ++ (⟨new_name, note.content, now, filePathOf new_name⟩ : Note) :: l₂,
            fsWrite (fsWrite (fsEraseKey fs note.filepath) (filePathOf new_name) c)
              (filePathOf new_name) note.content)) := by
  intro l
  induction l with
  | nil => intro fs h; cases h
  | cons n rest ih =>
    intro fs hfind hread
    by_cases hp : (pyLower n.name == pyLower old_name) = true
    · have hn : n = note := by
        rw [List.find?_cons_of_pos rest hp] at hfind
        exact Option.some.inj hfind
      subst hn
      have hren : fsRename fs n.filepath (filePathOf new_name) =
          some (fsWrite (fsEraseKey fs n.filepath) (filePathOf new_name) c) := by
        rw [fsRename, hread]; rfl
      refine ⟨[], rest, rfl, by simp, ?_⟩
      rw [renameGo, if_pos hp, hren]
      rfl
    · have hp' : (pyLower n.name == pyLower old_name) = false := by simpa using hp
      rw [List.find?_cons_of_neg rest hp] at hfind
      obtain ⟨l₁, l₂, hsplit, hpre, hgo⟩ := ih fs hfind hread
      refine ⟨n :: l₁, l₂, by rw [hsplit]; rfl, ?_, ?_⟩
      · intro k hk
        rcases List.mem_cons.mp hk with hk | hk
        · subst hk; exact hp'
        · exact hpre k hk
      · rw [renameGo, if_neg hp, hgo]
        rfl

theorem renameGo_ok_some (old_name new_name : String) (now : Nat) :
    ∀ (l : List Note) (fs : FS) (l' : List Note) (fs' : FS),
      renameGo old_name new_name now fs l = .ok (some (l', fs')) →
      ∃ l₁ note l₂, l = l₁ ++ note :: l₂ ∧
        (pyLower note.name == pyLower old_name) = true ∧
        l' = l₁ ++ (⟨new_name, note.content, now, filePathOf new_name⟩ : Note) :: l₂ := by
  intro l
  induction l with
  | nil =>
    intro fs l' fs' h
    rw [renameGo] at h
    injection h with h1
    cases h1
  | cons n rest ih =>
    intro fs l' fs' h
    by_cases hp : (pyLower n.name == pyLower old_name) = true
    · rw [renameGo, if_pos hp] at h
      cases hr : fsRename fs n.filepath (filePathOf new_name) with
      | none => rw [hr] at h; cases h
      | some fs1 =>
        rw [hr] at h
        injection h with h1
        injection h1 with h2
        refine ⟨[], n, rest, rfl, hp, ?_⟩
        rw [List.nil_append]
        exact (congrArg Prod.fst h2).symm
    · rw [renameGo, if_neg hp] at h
      cases hrg : renameGo old_name new_name now fs rest with
      | error e => rw [hrg] at h; cases h
      | ok o =>
        cases o with
        | none =>
          rw [hrg] at h
          injection h with h1
          cases h1
        | some pr =>
          rw [hrg] at h
          injection h with h1
          injection h1 with h2
          obtain ⟨l₁, note, l₂, hsplit, hmatch, hrepl⟩ := ih fs pr.1 pr.2 (by rw [hrg])
          refine ⟨n :: l₁, note, l₂, by rw [hsplit]; rfl, hmatch, ?_⟩
          have hl' : l' = n :: pr.1 := by
            have := congrArg Prod.fst h2
            simpa using this.symm
          rw [hl', hrepl]; rfl

theorem load_notes_names :
    ∀ (listing : List String) (fs : FS) (now : Nat) (ns : List Note),
      Notebook.load_notes listing fs now = .ok ns →
      ∀ n ∈ ns, ∃ f ∈ listing, pyEndsWith f ".txt" = true ∧ n.name = pyStemTxt f := by
  intro listing
  induction listing with
  | nil =>
    intro fs now ns h n hn
    rw [Notebook.load_notes] at h
    injection h with h1
    subst h1
    cases hn
  | cons f rest ih =>
    intro fs now ns h n hn
    rw [Notebook.load_notes] at h
    by_cases ht : pyEndsWith f ".txt" = true
    · rw [if_pos ht] at h
      cases hr : fsRead fs (notes_folder ++ "/" ++ f) with
      | none => rw [hr] at h; cases h
      | some c =>
        rw [hr] at h
        cases hl : Notebook.load_notes rest fs now with
        | error e => rw [hl] at h; cases h
        | ok ns' =>
          rw [hl] at h
          injection h with h1
          subst h1
          rcases List.mem_cons.mp hn with hn | hn
          · subst hn; exact ⟨f, List.mem_cons_self f rest, ht, rfl⟩
          · obtain ⟨g, hg, hgt, hgn⟩ := ih fs now ns' hl n hn
            exact ⟨g, List.mem_cons_of_mem f hg, hgt, hgn⟩
    · rw [if_neg ht] at h
      obtain ⟨g, hg, hgt, hgn⟩ := ih fs now ns h n hn
      exact ⟨g, List.mem_cons_of_mem f hg, hgt, hgn⟩

theorem load_notes_noCaseDup :
    ∀ (listing : List String) (fs : FS) (now : Nat) (ns : List Note),
      listingOk listing = true →
      Notebook.load_notes listing fs now = .ok ns → noCaseDup ns = true := by
  intro listing
  induction listing with
  | nil =>
    intro fs now ns _ h
    rw [Notebook.load_notes] at h
    injection h with h1
    subst h1
    rfl
  | cons f rest ih =>
    intro fs now ns hok h
    rw [Notebook.load_notes] at h
    rw [listingOk] at hok
    by_cases ht : pyEndsWith f ".txt" = true
    · rw [if_pos ht] at h hok
      rw [Bool.and_eq_true, Bool.not_eq_true', List.any_eq_false] at hok
      cases hr : fsRead fs (notes_folder ++ "/" ++ f) with
      | none => rw [hr] at h; cases h
      | some c =>
        rw [hr] at h
        cases hl : Notebook.load_notes rest fs now with
        | error e => rw [hl] at h; cases h
        | ok ns' =>
          rw [hl] at h
          injection h with h1
          subst h1
          rw [noCaseDup, Bool.and_eq_true, Bool.not_eq_true', List.any_eq_false]
          constructor
          · intro m hm
            obtain ⟨g, hg, hgt, hgn⟩ := load_notes_names rest fs now ns' hl m hm
            have hng := hok.1 g hg
            rw [hgt, Bool.true_and] at hng
            simpa [hgn] using hng
          · exact ih fs now ns' hok.2 hl
    · rw [if_neg ht] at h hok
      exact ih fs now ns hok h

/-- Claim C3 as stated is false: `load_notes` performs no case-insensitive
deduplication, so on a (case-sensitive) filesystem holding both `Foo.txt`
and `foo.txt` the freshly loaded collection already violates the
uniqueness invariant. -/
theorem C3_counterexample :
    Notebook.load_notes ["Foo.txt", "foo.txt"]
        [("notes/Foo.txt", "a"), ("notes/foo.txt", "b")] 0 =
      .ok [⟨"Foo", "a", 0, "notes/Foo.txt"⟩, ⟨"foo", "b", 0, "notes/foo.txt"⟩] ∧
    noCaseDup [⟨"Foo", "a", 0, "notes/Foo.txt"⟩, ⟨"foo", "b", 0, "notes/foo.txt"⟩] = false :=
  ⟨rfl, by decide⟩

/-- Claim C3 (amended): the case-insensitive uniqueness invariant is
preserved by `create_note`, and by `rename_note` and `delete_note`
whenever they return without raising; after `load_notes` it holds
provided no two `.txt` files in the folder listing have
case-insensitively equal stems (`load_notes` itself does not
deduplicate). -/
theorem C3_invariant_preserved :
    (∀ (nb : Notebook) (fs : FS) (name content : String) (now : Nat),
        noCaseDup nb.notes = true →
        noCaseDup (nb.create_note fs name content now).1.notes = true) ∧
    (∀ (nb : Notebook) (fs : FS) (old_name new_name : String) (now : Nat)
        (nb' : Notebook) (fs' : FS) (msgs : List String),
        noCaseDup nb.notes = true →
        nb.rename_note fs old_name new_name now = .ok (nb', fs', msgs) →
        noCaseDup nb'.notes = true) ∧
    (∀ (nb : Notebook) (fs : FS) (name conf : String) (r : Bool)
        (nb' : Notebook) (fs' : FS) (msgs : List String),
        noCaseDup nb.notes = true →
        nb.delete_note fs name conf = .ok (r, nb', fs', msgs) →
        noCaseDup nb'.notes = true) ∧
    (∀ (listing : List String) (fs : FS) (now : Nat) (ns : List Note),
        listingOk listing = true →
        Notebook.load_notes listing fs now = .ok ns → noCaseDup ns = true) := by
  refine ⟨?_, ?_, ?_, load_notes_noCaseDup⟩
  · intro nb fs name content now hinv
    by_cases h : nb.note_exists name = true
    · rw [Notebook.create_note, if_pos h]
      exact hinv
    · have h' : nb.note_exists name = false := by simpa using h
      rw [Notebook.create_note, h']
      simp only [Bool.false_eq_true, if_false]
      show noCaseDup (nb.notes ++ [⟨name, content, now, filePathOf name⟩]) = true
      rw [noCaseDup_iff]
      refine List.pairwise_append.mpr ⟨(noCaseDup_iff _).mp hinv, List.pairwise_singleton _ _,
        ?_⟩
      intro x hx y hy
      rcases List.mem_singleton.mp hy with rfl
      intro he
      exact (List.any_eq_false.mp h') x hx (beq_iff_eq.mpr he)
  · intro nb fs old_name new_name now nb' fs' msgs hinv h
    rw [Notebook.rename_note] at h
    by_cases hc : (pyLower old_name != pyLower new_name && nb.note_exists new_name) = true
    · rw [if_pos hc] at h
      injection h with h1
      rw [← show nb = nb' from congrArg (fun t => t.1) h1]
      exact hinv
    · rw [if_neg hc] at h
      cases hrg : renameGo old_name new_name now fs nb.notes with
      | error e => rw [hrg] at h; cases h
      | ok o =>
        cases o with
        | none =>
          rw [hrg] at h
          injection h with h1
          rw [← show nb = nb' from congrArg (fun t => t.1) h1]
          exact hinv
        | some pr =>
          rw [hrg] at h
          injection h with h1
          rw [← show (⟨pr.1⟩ : Notebook) = nb' from congrArg (fun t => t.1) h1]
          obtain ⟨l₁, note, l₂, hsplit, hmatch, hrepl⟩ :=
            renameGo_ok_some old_name new_name now nb.notes fs pr.1 pr.2 (by rw [hrg])
          show noCaseDup pr.1 = true
          rw [hrepl, noCaseDup_iff]
          rw [hsplit] at hinv
          have hpw := (noCaseDup_iff _).mp hinv
          have hcross := (List.pairwise_append.mp hpw).2.2
          have hl₂ := (List.pairwise_cons.mp (List.pairwise_append.mp hpw).2.1).1

          apply pairwise_replace_mid hpw
          have hcf : (pyLower old_name != pyLower new_name && nb.note_exists new_name) = false :=
            by simpa using hc
          rcases Bool.and_eq_false_iff.mp hcf with hcase | hcase

          · have heq : pyLower old_name = pyLower new_name := bne_eq_false_iff_eq.mp hcase
            have hnote : pyLower note.name = pyLower new_name := by
              rw [← heq]
              exact beq_iff_eq.mp hmatch
            intro k hk
            show pyLower k.name ≠ pyLower new_name
            rw [← hnote]
            rcases List.mem_append.mp hk with hk | hk
            · exact hcross k hk note (List.mem_cons_self note l₂)
            · exact fun he => hl₂ k hk he.symm
          · intro k hk
            show pyLower k.name ≠ pyLower new_name
            have hkmem : k ∈ nb.notes := by
              rw [hsplit]
              rcases List.mem_append.mp hk with hk | hk
              · exact List.mem_append_left _ hk
              · exact List.mem_append_right _ (List.mem_cons_of_mem note hk)
            intro he
            exact (List.any_eq_false.mp hcase) k hkmem (beq_iff_eq.mpr he)
  · intro nb fs name conf r nb' fs' msgs hinv h
    cases hg : nb.get_note name with
    | some note =>
      simp only [Notebook.delete_note, hg] at h
      by_cases hy : (pyLower conf == "yes") = true
      · rw [if_pos hy] at h; cases h
      · rw [if_neg hy] at h
        injection h with h1
        rw [← show nb = nb' from congrArg (fun t => t.2.1) h1]
        exact hinv
    | none =>
      simp only [Notebook.delete_note, hg] at h
      injection h with h1
      rw [← show nb = nb' from congrArg (fun t => t.2.1) h1]
      exact hinv

/-- Witness for C3's amended theorem at concrete inputs for each of the
four operations. -/
theorem C3_witness :
    noCaseDup (Notebook.create_note ⟨[⟨"a", "x", 0, filePathOf "a"⟩]⟩ [(filePathOf "a", "x")]
        "b" "y" 1).1.notes = true ∧
      noCaseDup (⟨[⟨"b", "x", 1, filePathOf "b"⟩]⟩ : Notebook).notes = true ∧
      noCaseDup (⟨[⟨"a", "x", 0, filePathOf "a"⟩]⟩ : Notebook).notes = true ∧
      noCaseDup [⟨"a", "x", 0, filePathOf "a"⟩] = true :=
  ⟨C3_invariant_preserved.1 ⟨[⟨"a", "x", 0, filePathOf "a"⟩]⟩ [(filePathOf "a", "x")]
      "b" "y" 1 (by decide),
    C3_invariant_preserved.2.1 ⟨[⟨"a", "x", 0, filePathOf "a"⟩]⟩ [(filePathOf "a", "x")]
      "a" "b" 1 ⟨[⟨"b", "x", 1, filePathOf "b"⟩]⟩ [(filePathOf "b", "x")]
      ["Note renamed successfully."] (by decide) rfl,
    C3_invariant_preserved.2.2.1 ⟨[⟨"a", "x", 0, filePathOf "a"⟩]⟩ [(filePathOf "a", "x")]
      "a" "no" false ⟨[⟨"a", "x", 0, filePathOf "a"⟩]⟩ [(filePathOf "a", "x")]
      ["Deletion cancelled."] (by decide) rfl,
    C3_invariant_preserved.2.2.2 ["a.txt"] [("notes/a.txt", "x")] 0
      [⟨"a", "x", 0, "notes/a.txt"⟩] (by decide) rfl⟩

/-- Claim C7 is a code bug: `Notebook.delete_note` on a found note with a
confirming answer calls `note.delete()`, but `class Note` defines no
method `delete`, so Python raises `AttributeError` instead of removing
the file and the entry and returning `True`.  This theorem evaluates the
embedded code at the failing input. -/
theorem C7_delete_confirmed_raises :
    Notebook.delete_note ⟨[⟨"x", "hi", 0, filePathOf "x"⟩]⟩ [(filePathOf "x", "hi")] "x" "yes" =
      .error "AttributeError: Note object has no attribute delete" := rfl

/-- Claim C8: in `display_notes`, every note whose content is strictly
longer than 50 characters is previewed as exactly its first 50 characters
followed by the ellipsis marker `"..."`, and every note whose content is
at most 50 characters long is previewed unmodified. -/
theorem C8_preview_truncation (nb : Notebook) (fs : FS) (rows : List Row)
    (h : nb.display_notes fs = .ok rows) :
    rows.length = nb.notes.length ∧
      ∀ (j : Nat) (hj : j < rows.length) (hl : j < nb.notes.length),
        (rows.get ⟨j, hj⟩).preview =
          if 50 < (nb.notes.get ⟨j, hl⟩).content.length
          then pyTake (nb.notes.get ⟨j, hl⟩).content 50 ++ "..."
          else (nb.notes.get ⟨j, hl⟩).content :=
  displayRows_preview fs nb.notes 1 rows h

/-- Witness for C8 at a concrete input: a 60-character content is
previewed as its first 50 characters plus `"..."`, a 40-character content
unmodified. -/
theorem C8_witness :
    Notebook.display_notes w8notebook w8fs = .ok w8rows ∧
      (w8rows.length = w8notebook.notes.length ∧
        ∀ (j : Nat) (hj : j < w8rows.length) (hl : j < w8notebook.notes.length),
          (w8rows.get ⟨j, hj⟩).preview =
            if 50 < (w8notebook.notes.get ⟨j, hl⟩).content.length
            then pyTake (w8notebook.notes.get ⟨j, hl⟩).content 50 ++ "..."
            else (w8notebook.notes.get ⟨j, hl⟩).content) :=
  ⟨rfl, C8_preview_truncation w8notebook w8fs w8rows rfl⟩

/-- Claim C9 as stated is false: `display_notes` reads each note's
backing file with no exception handler, so a missing file raises a
`FileNotFoundError` that propagates out of the operation (and out of the
command loop). -/
theorem C9_counterexample :
    Notebook.display_notes ⟨[⟨"x", "hi", 0, filePathOf "x"⟩]⟩ [] =
      .error "FileNotFoundError" := rfl

/-- Claim C9 (amended): only the editor launch inside `Note.edit` is
guarded by a handler; `display_notes` performs unguarded file reads and
completes without an exception exactly when every note's backing file
`notes/<name>.txt` exists; otherwise a `FileNotFoundError` propagates out
of the operation. -/
theorem C9_display_ok_iff_files_exist (nb : Notebook) (fs : FS) :
    (∃ rows, nb.display_notes fs = .ok rows) ↔
      ∀ n ∈ nb.notes, (fsRead fs (filePathOf n.name)).isSome = true :=
  displayRows_ok_iff fs nb.notes 1

/-- Witness for C9's amended theorem at a concrete input. -/
theorem C9_witness :
    ∃ rows, Notebook.display_notes ⟨[⟨"x", "hi", 0, filePathOf "x"⟩]⟩
      [(filePathOf "x", "hi")] = .ok rows :=
  (C9_display_ok_iff_files_exist ⟨[⟨"x", "hi", 0, filePathOf "x"⟩]⟩
    [(filePathOf "x", "hi")]).mpr (by decide)

/-- Claim C4: renaming an existing note named `a` to a name `b` not in
the collection removes the file `notes/a.txt`, leaves `notes/b.txt`
containing the note's content, and makes a subsequent `get_note(a)`
report not-found.  (With `b` absent while `a` is present, `a` and `b` are
automatically not case-insensitively equal, so the claim's caveat is
vacuous.) -/
theorem C4_rename_fresh_target (nb : Notebook) (fs : FS) (a b : String) (now : Nat)
    (note : Note) (c : String)
    (hinv : noCaseDup nb.notes = true)
    (hget : nb.get_note a = some note) (hname : note.name = a)
    (hpath : note.filepath = filePathOf a)
    (hfresh : nb.note_exists b = false)
    (hfile : fsRead fs (filePathOf a) = some c) :
    ∃ nb' fs' msgs, nb.rename_note fs a b now = .ok (nb', fs', msgs) ∧
      fsRead fs' (filePathOf a) = none ∧
      fsRead fs' (filePathOf b) = some note.content ∧
      nb'.get_note a = none := by
  have hmem : note ∈ nb.notes := List.mem_of_find?_eq_some hget
  have hab : pyLower a ≠ pyLower b := by
    intro he
    exact (List.any_eq_false.mp hfresh) note hmem (beq_iff_eq.mpr (by rw [hname, he]))
  have hanb : a ≠ b := fun h => hab (by rw [h])
  have hfp : filePathOf a ≠ filePathOf b := fun h => hanb (filePathOf_inj h)
  have hread : fsRead fs note.filepath = some c := by rw [hpath]; exact hfile
  obtain ⟨l₁, l₂, hsplit, hpre, hgo⟩ := renameGo_found a b now note c nb.notes fs hget hread
  have hcond : (pyLower a != pyLower b && nb.note_exists b) = false := by
    rw [hfresh]; simp
  refine ⟨⟨l₁ ++ (⟨b, note.content, now, filePathOf b⟩ : Note) :: l₂⟩,
    fsWrite (fsWrite (fsEraseKey fs note.filepath) (filePathOf b) c) (filePathOf b) note.content,
    ["Note renamed successfully."], ?_, ?_, ?_, ?_⟩
  · rw [Notebook.rename_note, hcond]
    simp only [Bool.false_eq_true, if_false]
    rw [hgo]
  · rw [fsRead_write_ne _ note.content hfp, fsRead_write_ne _ c hfp, hpath, fsRead_eraseKey_self]
  · exact fsRead_write_self _ _ _
  · rw [show (⟨l₁ ++ (⟨b, note.content, now, filePathOf b⟩ : Note) :: l₂⟩ : Notebook).get_note a
        = (l₁ ++ (⟨b, note.content, now, filePathOf b⟩ : Note) :: l₂).find?
            (fun n => pyLower n.name == pyLower a) from rfl]
    rw [List.find?_eq_none]
    intro x hx
    rw [hsplit] at hinv
    have hpw := (noCaseDup_iff _).mp hinv
    have hl₂ := (List.pairwise_cons.mp (List.pairwise_append.mp hpw).2.1).1
    rcases List.mem_append.mp hx with hx | hx
    · simp [hpre x hx]
    · rcases List.mem_cons.mp hx with hx | hx
      · subst hx
        exact fun hbeq => hab (beq_iff_eq.mp hbeq).symm
      · exact fun hbeq => hl₂ x hx (by rw [hname, beq_iff_eq.mp hbeq])

/-- Witness for C4 at a concrete input. -/
theorem C4_witness :
    ∃ nb' fs' msgs,
      Notebook.rename_note ⟨[⟨"a", "hello", 0, filePathOf "a"⟩]⟩ [(filePathOf "a", "hello")]
          "a" "b" 2 = .ok (nb', fs', msgs) ∧
        fsRead fs' (filePathOf "a") = none ∧
        fsRead fs' (filePathOf "b") = some "hello" ∧
        nb'.get_note "a" = none :=
  C4_rename_fresh_target ⟨[⟨"a", "hello", 0, filePathOf "a"⟩]⟩ [(filePathOf "a", "hello")]
    "a" "b" 2 ⟨"a", "hello", 0, filePathOf "a"⟩ "hello"
    (by decide) (by decide) rfl rfl (by decide) (by decide)

/-- Claim C5: `rename_note(old_name, new_name)` is a no-op returning
exactly the conflict message iff `new_name` already exists under a
case-insensitive identity different from `old_name`'s; and renaming a
present note to a spelling that differs only in case from `old_name` is
permitted and performs the rename. -/
theorem C5_rename_conflict_exactly (nb : Notebook) (fs : FS) (old_name new_name : String)
    (now : Nat) :
    (nb.rename_note fs old_name new_name now =
        .ok (nb, fs, ["A note with this name already exists. Please choose a different name."]) ↔
      pyLower old_name ≠ pyLower new_name ∧ nb.note_exists new_name = true) ∧
    (∀ (note : Note) (c : String), pyLower old_name = pyLower new_name →
      nb.get_note old_name = some note → fsRead fs note.filepath = some c →
      ∃ nb' fs', nb.rename_note fs old_name new_name now =
          .ok (nb', fs', ["Note renamed successfully."]) ∧
        ∃ n' ∈ nb'.notes, n'.name = new_name ∧ n'.content = note.content) := by
  constructor
  · constructor
    · intro h
      by_cases hc : (pyLower old_name != pyLower new_name && nb.note_exists new_name) = true
      · rw [Bool.and_eq_true] at hc
        exact ⟨bne_iff_ne.mp hc.1, hc.2⟩
      · exfalso
        have hc' : (pyLower old_name != pyLower new_name && nb.note_exists new_name) = false := by
          simpa using hc
        rw [Notebook.rename_note, hc'] at h
        simp only [Bool.false_eq_true, if_false] at h
        cases hrg : renameGo old_name new_name now fs nb.notes with
        | error e => rw [hrg] at h; cases h
        | ok o =>
          cases o with
          | none => rw [hrg] at h; simp at h
          | some pr => rw [hrg] at h; simp at h
    · rintro ⟨h1, h2⟩
      have hc : (pyLower old_name != pyLower new_name && nb.note_exists new_name) = true := by
        rw [Bool.and_eq_true]
        exact ⟨bne_iff_ne.mpr h1, h2⟩
      rw [Notebook.rename_note, hc]
      rfl
  · rintro note c heq hget hread
    have hc' : (pyLower old_name != pyLower new_name && nb.note_exists new_name) = false := by
      rw [heq]; simp
    obtain ⟨l₁, l₂, hsplit, hpre, hgo⟩ :=
      renameGo_found old_name new_name now note c nb.notes fs hget hread
    refine ⟨⟨l₁ ++ (⟨new_name, note.content, now, filePathOf new_name⟩ : Note) :: l₂⟩,
      fsWrite (fsWrite (fsEraseKey fs note.filepath) (filePathOf new_name) c)
        (filePathOf new_name) note.content, ?_, ?_⟩
    · rw [Notebook.rename_note, hc']
      simp only [Bool.false_eq_true, if_false]
      rw [hgo]
    · exact ⟨⟨new_name, note.content, now, filePathOf new_name⟩,
        List.mem_append_right l₁ (List.mem_cons_self _ _), rfl, rfl⟩

/-- Witness for C5 at concrete inputs: renaming "a" to "B" with "b"
present is the conflict no-op; renaming "foo" to "FOO" proceeds. -/
theorem C5_witness :
    (Notebook.rename_note ⟨[⟨"a", "x", 0, filePathOf "a"⟩, ⟨"b", "y", 0, filePathOf "b"⟩]⟩
        [(filePathOf "a", "x"), (filePathOf "b", "y")] "a" "B" 3 =
      .ok (⟨[⟨"a", "x", 0, filePathOf "a"⟩, ⟨"b", "y", 0, filePathOf "b"⟩]⟩,
        [(filePathOf "a", "x"), (filePathOf "b", "y")],
        ["A note with this name already exists. Please choose a different name."])) ∧
    (∃ nb' fs', Notebook.rename_note ⟨[⟨"foo", "z", 0, filePathOf "foo"⟩]⟩
        [(filePathOf "foo", "z")] "foo" "FOO" 4 = .ok (nb', fs', ["Note renamed successfully."]) ∧
      ∃ n' ∈ nb'.notes, n'.name = "FOO" ∧ n'.content = "z") :=
  ⟨((C5_rename_conflict_exactly ⟨[⟨"a", "x", 0, filePathOf "a"⟩, ⟨"b", "y", 0, filePathOf "b"⟩]⟩
        [(filePathOf "a", "x"), (filePathOf "b", "y")] "a" "B" 3).1).mpr
      ⟨by decide, by decide⟩,
    (C5_rename_conflict_exactly ⟨[⟨"foo", "z", 0, filePathOf "foo"⟩]⟩
        [(filePathOf "foo", "z")] "foo" "FOO" 4).2 ⟨"foo", "z", 0, filePathOf "foo"⟩ "z"
      (by decide) (by decide) (by decide)⟩

/-- Claim C10: because `delete_note` returns `False` both for an absent
note and for a declined confirmation, the `delete` command handler prints
"Note not found." even when the note exists and the user declined — right
after `delete_note`'s own "Deletion cancelled." message. -/
theorem C10_delete_declined_prints_not_found (nb : Notebook) (fs : FS) (name conf : String)
    (note : Note) (h1 : nb.get_note name = some note)
    (h2 : (pyLower conf == "yes") = false) :
    CommandProcessor.delete nb fs [name] conf =
      .ok (nb, fs, ["Deletion cancelled.", "Note not found."]) := by
  simp [CommandProcessor.delete, Notebook.delete_note, h1, h2]

/-- Witness for C10 at a concrete input. -/
theorem C10_witness :
    CommandProcessor.delete ⟨[⟨"x", "hi", 0, filePathOf "x"⟩]⟩ [(filePathOf "x", "hi")]
        ["x"] "no" = .ok (⟨[⟨"x", "hi", 0, filePathOf "x"⟩]⟩, [(filePathOf "x", "hi")],
        ["Deletion cancelled.", "Note not found."]) :=
  C10_delete_declined_prints_not_found ⟨[⟨"x", "hi", 0, filePathOf "x"⟩]⟩
    [(filePathOf "x", "hi")] "x" "no" ⟨"x", "hi", 0, filePathOf "x"⟩ (by decide) (by decide)
